import Mathlib

/-!
# Verification of the price-comparison core of `src/App.js`

Shallow embedding of the price-comparison aggregation logic of the grocery
price-comparison frontend.  The relevant source is `src/App.js`: the functions
`getLowestPrice` (App.js:352-360 in the guest search view, App.js:792-800 in the
authenticated search view) and `prepareChartData` (App.js:363-389 and
App.js:803-829), plus the per-product orchestration in the render body
(App.js:430-437).

Modelling decisions:
* A price is a rational number (`ℚ`): the spec requires a decimal price type
  free of floating-point comparison error, and every comparison the code
  performs (`<` in the reduce step, the `a.price - b.price` comparator) is
  order-based, so `ℚ` captures the semantics exactly.
* `prices.reduce((min, price) => price.price < min.price ? price : min, prices[0])`
  is a left fold over the whole array with initial accumulator `prices[0]`.
* `[...prices].sort((a, b) => a.price - b.price)`: ECMAScript `Array.prototype.sort`
  is a stable sort with respect to the comparator.  A stable sort with respect to
  the total preorder `priceLE` produces a unique output, so it is embedded as
  `List.insertionSort priceLE`, which is stable.
* `results.prices[productId]` on a plain JS object is embedded as an association
  lookup returning `Option`: `none` models the `undefined` (falsy) case the
  guards `!results.prices[productId]` test for.  Note that an *empty array* is
  truthy in JS, so `some []` passes those guards.
* `null` results are embedded as `none`.
-/

/-- A per-store price record `{store, price}` as delivered by the search API. -/
structure PriceObservation where
  store : String
  price : ℚ
deriving DecidableEq, Repr

/-- A matched product as delivered by the search API.  Only the fields the
price-comparison core reads are modelled; `weight`, `quantity`, `unit` and
`image_url` are display-only and never inspected by the core logic. -/
structure Product where
  id : String
  name : String
  category : String
deriving DecidableEq, Repr

/-- The search response shape `{ products: [...], prices: { [productId]: [...] } }`.
The `prices` object is an association list keyed by product id; an id absent
from the list models a JS `undefined` entry. -/
structure SearchResults where
  products : List Product
  prices : List (String × List PriceObservation)
deriving DecidableEq, Repr

/-- One step of the reduce in App.js:358-359:
`(min, price) => price.price < min.price ? price : min`. -/
def selectStep (min price : PriceObservation) : PriceObservation :=
  if price.price < min.price then price else min

/-- The body of `getLowestPrice` once the observation list is in hand
(App.js:356-359): `if (prices.length === 0) return null;`
then `prices.reduce((min, price) => price.price < min.price ? price : min, prices[0])`.
JS `reduce` with an explicit initial value folds over every element, the first
one included. -/
def getLowestPriceList : List PriceObservation → Option PriceObservation
  | [] => none
  | p :: rest => some (List.foldl selectStep p (p :: rest))

/-- The order the comparator `(a, b) => a.price - b.price` sorts by. -/
def priceLE (a b : PriceObservation) : Prop :=
  a.price ≤ b.price

instance : DecidableRel priceLE :=
  fun a b => inferInstanceAs (Decidable (a.price ≤ b.price))

instance : IsTotal PriceObservation priceLE :=
  ⟨fun a b => le_total a.price b.price⟩

instance : IsTrans PriceObservation priceLE :=
  ⟨fun _ _ _ hab hbc => le_trans hab hbc⟩

/-- `const sortedPrices = [...prices].sort((a, b) => a.price - b.price)`
(App.js:371).  ECMAScript sort is stable, and a stable sort by the total
preorder `priceLE` has a unique result, realised here by insertion sort. -/
def sortedPrices (prices : List PriceObservation) : List PriceObservation :=
  List.insertionSort priceLE prices

/-- One dataset of the chart.js data object built in App.js:375-387. -/
structure ChartDataset where
  label : String
  data : List ℚ
  backgroundColor : List String
  borderColor : List String
  borderWidth : ℕ
deriving DecidableEq, Repr

/-- The chart.js data object `{labels, datasets}` built in App.js:373-388. -/
structure ChartData where
  labels : List String
  datasets : List ChartDataset
deriving DecidableEq, Repr

/-- `getLowestPrice` (App.js:352-360, guest search view).  The closed-over
`results` state is passed explicitly.  The guard
`if (!results || !results.prices || !results.prices[productId]) return null`
is the `none` branch of the lookup. -/
def getLowestPrice (results : SearchResults) (productId : String) :
    Option PriceObservation :=
  match results.prices.lookup productId with
  | none => none
  | some prices => getLowestPriceList prices

/-- `prepareChartData` (App.js:363-389, guest search view).  Note the guard
only tests `!results.prices[productId]`: an empty observation array is truthy
and falls through to the chart construction. -/
def prepareChartData (results : SearchResults) (productId : String) :
    Option ChartData :=
  match results.prices.lookup productId with
  | none => none
  | some prices =>
    let sorted := sortedPrices prices
    some
      { labels := sorted.map (fun price => price.store)
        datasets := [
          { label := "Price (£)"
            data := sorted.map (fun price => price.price)
            backgroundColor := sorted.mapIdx (fun index _ =>
              if index = 0 then "rgba(34, 197, 94, 0.7)" else "rgba(99, 102, 241, 0.5)")
            borderColor := sorted.mapIdx (fun index _ =>
              if index = 0 then "rgb(34, 197, 94)" else "rgb(79, 70, 229)")
            borderWidth := 1 } ] }

/-- The per-product orchestration in the render body (App.js:430-437):
`results.products.map(product => { const lowestPrice = getLowestPrice(product.id);
const chartData = prepareChartData(product.id); ... })`. -/
def renderEntries (results : SearchResults) :
    List (Product × Option PriceObservation × Option ChartData) :=
  results.products.map (fun product =>
    (product, getLowestPrice results product.id, prepareChartData results product.id))

namespace AuthSearch

/-- `getLowestPrice` as duplicated in the authenticated search view
(App.js:792-800), translated independently of the guest-view copy above:
the reduce lambda is written out inline exactly as it appears there. -/
def getLowestPrice (results : SearchResults) (productId : String) :
    Option PriceObservation :=
  match results.prices.lookup productId with
  | none => none
  | some prices =>
    match prices with
    | [] => none
    | p :: rest =>
      some (List.foldl
        (fun min price => if price.price < min.price then price else min)
        p (p :: rest))

/-- `prepareChartData` as duplicated in the authenticated search view
(App.js:803-829), translated independently of the guest-view copy above. -/
def prepareChartData (results : SearchResults) (productId : String) :
    Option ChartData :=
  match results.prices.lookup productId with
  | none => none
  | some prices =>
    let sorted := List.insertionSort priceLE prices
    some
      { labels := sorted.map (fun price => price.store)
        datasets := [
          { label := "Price (£)"
            data := sorted.map (fun price => price.price)
            backgroundColor := sorted.mapIdx (fun index _ =>
              if index = 0 then "rgba(34, 197, 94, 0.7)" else "rgba(99, 102, 241, 0.5)")
            borderColor := sorted.mapIdx (fun index _ =>
              if index = 0 then "rgb(34, 197, 94)" else "rgb(79, 70, 229)")
            borderWidth := 1 } ] }

end AuthSearch

/-!
## Reference-level model of the sort (for the frame property)

JS arrays are heap references and `Array.prototype.sort` mutates its receiver
in place.  To state that `prepareChartData` never mutates the observation array
stored in `results`, the array store is made explicit: a heap of arrays indexed
by references. -/

/-- A heap of price-observation arrays; a reference is an index into `cells`. -/
structure ArrayHeap where
  cells : List (List PriceObservation)
deriving DecidableEq, Repr

/-- Dereference (out-of-range reads return the empty array; the theorems only
use in-range references). -/
def ArrayHeap.get (h : ArrayHeap) (r : ℕ) : List PriceObservation :=
  h.cells.getD r []

/-- In-place update of the array a reference points to. -/
def ArrayHeap.write (h : ArrayHeap) (r : ℕ) (v : List PriceObservation) : ArrayHeap :=
  ⟨h.cells.set r v⟩

/-- Allocate a fresh array, returning the new heap and the fresh reference. -/
def ArrayHeap.alloc (h : ArrayHeap) (v : List PriceObservation) : ArrayHeap × ℕ :=
  (⟨h.cells ++ [v]⟩, h.cells.length)

/-- `const sortedPrices = [...prices].sort((a, b) => a.price - b.price)`
(App.js:368-371) at the reference level: the spread `[...prices]` allocates a
fresh array holding a copy of the elements, and `.sort` then mutates that fresh
array in place.  Returns the heap after the statement and the reference bound
to `sortedPrices`. -/
def sortSpreadCopy (h : ArrayHeap) (pricesRef : ℕ) : ArrayHeap × ℕ :=
  let allocated := h.alloc (h.get pricesRef)
  let h1 := allocated.1
  let copyRef := allocated.2
  let h2 := h1.write copyRef (sortedPrices (h1.get copyRef))
  (h2, copyRef)

/-!
## Raw model: unvalidated price values

The code performs no numeric validation of `price.price`.  To settle what it
does on a malformed (unparseable) price value, the raw value space is modelled
as `Option ℚ`: `none` stands for a value that does not parse as a number, i.e.
one that coerces to NaN under JS numeric comparison. -/

/-- JS `<` on price values: every comparison involving NaN is false. -/
def ltJS : Option ℚ → Option ℚ → Bool
  | some x, some y => decide (x < y)
  | _, _ => false

/-- A `{store, price}` record whose price field may fail to parse as a number. -/
structure RawObservation where
  store : String
  price : Option ℚ
deriving DecidableEq, Repr

/-- The reduce step of App.js:358-359 on raw values, with JS `<` semantics. -/
def selectStepRaw (min price : RawObservation) : RawObservation :=
  if ltJS price.price min.price then price else min

/-- The body of `getLowestPrice` on raw (unvalidated) observations. -/
def getLowestPriceRawList : List RawObservation → Option RawObservation
  | [] => none
  | p :: rest => some (List.foldl selectStepRaw p (p :: rest))

/-!
## Helper lemmas about the reduce step
-/

theorem selectStep_self (a : PriceObservation) : selectStep a a = a := by
  simp [selectStep]

theorem foldl_selectStep_cons_self (p : PriceObservation) (rest : List PriceObservation) :
    List.foldl selectStep p (p :: rest) = List.foldl selectStep p rest := by
  rw [List.foldl_cons, selectStep_self]

theorem selectStep_price_le_left (a c : PriceObservation) :
    (selectStep a c).price ≤ a.price := by
  unfold selectStep
  by_cases hc : c.price < a.price
  · simpa [hc] using le_of_lt hc
  · simp [hc]

theorem foldl_selectStep_price_le (l : List PriceObservation) (a : PriceObservation) :
    (List.foldl selectStep a l).price ≤ a.price := by
  induction l generalizing a with
  | nil => exact le_refl _
  | cons c t ih =>
    rw [List.foldl_cons]
    exact le_trans (ih (selectStep a c)) (selectStep_price_le_left a c)

/-- The reduce of App.js:358-359 computes the first element of `a :: l` that
attains the minimum price: it is an element (at some index `i`), its price is a
lower bound, and every element strictly before index `i` has a strictly larger
price. -/
theorem foldl_selectStep_spec (l : List PriceObservation) (a : PriceObservation) :
    ∃ i : ℕ, (a :: l)[i]? = some (List.foldl selectStep a l) ∧
      (∀ o ∈ a :: l, (List.foldl selectStep a l).price ≤ o.price) ∧
      (∀ o ∈ (a :: l).take i, (List.foldl selectStep a l).price < o.price) := by
  induction l using List.reverseRecOn with
  | nil => exact ⟨0, rfl, by simp, by simp⟩
  | append_singleton t c ih =>
    obtain ⟨i, hget, hmin, hlt⟩ := ih
    have hcons : a :: (t ++ [c]) = (a :: t) ++ [c] := by simp
    have hfold : List.foldl selectStep a (t ++ [c]) =
        selectStep (List.foldl selectStep a t) c := by
      rw [List.foldl_append, List.foldl_cons, List.foldl_nil]
    by_cases hc : c.price < (List.foldl selectStep a t).price
    · have hres : List.foldl selectStep a (t ++ [c]) = c := by
        rw [hfold]; exact if_pos hc
      refine ⟨(a :: t).length, ?_, ?_, ?_⟩
      · rw [hres, hcons]
        exact List.getElem?_concat_length _ _
      · intro o ho
        rw [hres]
        rw [hcons, List.mem_append] at ho
        rcases ho with ho | ho
        · exact le_of_lt (lt_of_lt_of_le hc (hmin o ho))
        · simp only [List.mem_singleton] at ho
          subst ho
          exact le_refl _
      · intro o ho
        rw [hres]
        rw [hcons, List.take_left] at ho
        exact lt_of_lt_of_le hc (hmin o ho)
    · have hres : List.foldl selectStep a (t ++ [c]) = List.foldl selectStep a t := by
        rw [hfold]; exact if_neg hc
      have hi : i < (a :: t).length := by
        rcases List.getElem?_eq_some.mp hget with ⟨hilen, _⟩
        exact hilen
      refine ⟨i, ?_, ?_, ?_⟩
      · rw [hres, hcons, List.getElem?_append_left hi]
        exact hget
      · intro o ho
        rw [hres]
        rw [hcons, List.mem_append] at ho
        rcases ho with ho | ho
        · exact hmin o ho
        · simp only [List.mem_singleton] at ho
          subst ho
          exact le_of_not_lt hc
      · intro o ho
        rw [hres]
        rw [hcons, List.take_append_eq_append_take,
          Nat.sub_eq_zero_of_le (le_of_lt hi), List.take_zero, List.append_nil] at ho
        exact hlt o ho

/-- Comparing the reduce from two starting accumulators with `a` no more
expensive than `b`: starting from `a` either keeps `a` (when `a` is still
minimal) or agrees with the run started from `b`. -/
theorem foldl_selectStep_mono (t : List PriceObservation) :
    ∀ a b : PriceObservation, a.price ≤ b.price →
      List.foldl selectStep a t =
        if a.price ≤ (List.foldl selectStep b t).price then a
        else List.foldl selectStep b t := by
  induction t with
  | nil =>
    intro a b hab
    simp only [List.foldl_nil]
    rw [if_pos hab]
  | cons c t ih =>
    intro a b hab
    rw [List.foldl_cons, List.foldl_cons]
    by_cases hca : c.price < a.price
    · have hcb : c.price < b.price := lt_of_lt_of_le hca hab
      have h1 : selectStep a c = c := by unfold selectStep; simp [hca]
      have h2 : selectStep b c = c := by unfold selectStep; simp [hcb]
      rw [h1, h2]
      have hle : (List.foldl selectStep c t).price < a.price :=
        lt_of_le_of_lt (foldl_selectStep_price_le t c) hca
      rw [if_neg (not_le_of_lt hle)]
    · have hac : a.price ≤ c.price := le_of_not_lt hca
      have h1 : selectStep a c = a := by unfold selectStep; simp [hca]
      rw [h1]
      by_cases hcb : c.price < b.price
      · have h2 : selectStep b c = c := by unfold selectStep; simp [hcb]
        rw [h2]
        exact ih a c hac
      · have h2 : selectStep b c = b := by unfold selectStep; simp [hcb]
        rw [h2]
        exact ih a b hab

/-- The head of the stable sort is exactly what the reduce computes. -/
theorem head_insertionSort_cons (l : List PriceObservation) :
    ∀ a : PriceObservation,
      (List.insertionSort priceLE (a :: l)).head? = some (List.foldl selectStep a l) := by
  induction l with
  | nil => intro a; rfl
  | cons b t ih =>
    intro a
    obtain ⟨s, hs⟩ := List.head?_eq_some_iff.mp (ih b)
    have hsort : List.insertionSort priceLE (a :: b :: t) =
        List.orderedInsert priceLE a (List.insertionSort priceLE (b :: t)) := rfl
    rw [hsort, hs, List.foldl_cons]
    by_cases hba : b.price < a.price
    · have h1 : selectStep a b = b := if_pos hba
      rw [h1]
      have hlt : (List.foldl selectStep b t).price < a.price :=
        lt_of_le_of_lt (foldl_selectStep_price_le t b) hba
      have hnot : ¬ priceLE a (List.foldl selectStep b t) := not_le_of_lt hlt
      rw [List.orderedInsert, if_neg hnot]
      rfl
    · have hab : a.price ≤ b.price := le_of_not_lt hba
      have h1 : selectStep a b = a := if_neg hba
      rw [h1, foldl_selectStep_mono t a b hab]
      rw [List.orderedInsert]
      by_cases ham : priceLE a (List.foldl selectStep b t)
      · have ham' : a.price ≤ (List.foldl selectStep b t).price := ham
        rw [if_pos ham, if_pos ham']
        rfl
      · have ham' : ¬ a.price ≤ (List.foldl selectStep b t).price := ham
        rw [if_neg ham, if_neg ham']
        rfl

/-!
## Stability of the sort
-/

/-- Inserting an observation whose price is `p` puts it in front of every other
observation with price `p` already present (they all come later in insertion
order), for the filtered view at price `p`. -/
theorem filter_orderedInsert_of_eq (a : PriceObservation) (p : ℚ) (ha : a.price = p) :
    ∀ l : List PriceObservation,
      (List.orderedInsert priceLE a l).filter (fun o => decide (o.price = p)) =
        a :: l.filter (fun o => decide (o.price = p)) := by
  intro l
  induction l with
  | nil => simp [ha]
  | cons b t ih =>
    by_cases hab : priceLE a b
    · rw [List.orderedInsert_of_le _ _ hab]
      simp [List.filter_cons, ha]
    · have hba : b.price < a.price := lt_of_not_le hab
      have hb : ¬ (b.price = p) := by
        intro hbp
        refine absurd hba ?_
        rw [hbp, ha]
        exact lt_irrefl p
      rw [List.orderedInsert, if_neg hab]
      rw [List.filter_cons, List.filter_cons, if_neg (by simp [hb]), if_neg (by simp [hb])]
      exact ih

/-- Inserting an observation whose price is not `p` leaves the filtered view at
price `p` unchanged. -/
theorem filter_orderedInsert_of_ne (a : PriceObservation) (p : ℚ) (ha : ¬ a.price = p) :
    ∀ l : List PriceObservation,
      (List.orderedInsert priceLE a l).filter (fun o => decide (o.price = p)) =
        l.filter (fun o => decide (o.price = p)) := by
  intro l
  induction l with
  | nil => simp [ha]
  | cons b t ih =>
    by_cases hab : priceLE a b
    · rw [List.orderedInsert_of_le _ _ hab]
      simp [List.filter_cons, ha]
    · rw [List.orderedInsert, if_neg hab]
      rw [List.filter_cons, List.filter_cons, ih]

/-- Stability of the embedded sort: for every price value, the observations
carrying that price appear in the sorted output exactly as they appear in the
input. -/
theorem filter_insertionSort (p : ℚ) :
    ∀ l : List PriceObservation,
      (List.insertionSort priceLE l).filter (fun o => decide (o.price = p)) =
        l.filter (fun o => decide (o.price = p)) := by
  intro l
  induction l with
  | nil => rfl
  | cons a t ih =>
    show (List.orderedInsert priceLE a
        (List.insertionSort priceLE t)).filter (fun o => decide (o.price = p)) = _
    by_cases ha : a.price = p
    · rw [filter_orderedInsert_of_eq a p ha, ih, List.filter_cons, if_pos (by simp [ha])]
    · rw [filter_orderedInsert_of_ne a p ha, ih, List.filter_cons, if_neg (by simp [ha])]

/-!
## Raw (unvalidated) model lemmas
-/

/-- Every JS comparison against a non-numeric value is false, so a malformed
accumulator is never displaced by the reduce. -/
theorem foldl_selectStepRaw_none (l : List RawObservation) :
    ∀ m : RawObservation, m.price = none → List.foldl selectStepRaw m l = m := by
  induction l with
  | nil => intro m _; rfl
  | cons c t ih =>
    intro m hm
    rw [List.foldl_cons]
    have hfalse : ltJS c.price m.price = false := by
      rw [hm]; cases c.price <;> rfl
    have hstep : selectStepRaw m c = m := by
      unfold selectStepRaw
      rw [hfalse]
      rfl
    rw [hstep]
    exact ih m hm

/-!
## Claim theorems
-/

/-- C1: for every non-empty observation sequence, `getLowestPriceList`
(selectLowest) returns an observation occurring in the input whose price is
less than or equal to every other observation's price, and it is the first
such observation in input order: every observation strictly before it has a
strictly larger price. -/
theorem getLowestPriceList_first_min (l : List PriceObservation) (h : l ≠ []) :
    ∃ (res : PriceObservation) (i : ℕ),
      getLowestPriceList l = some res ∧ l[i]? = some res ∧
        (∀ o ∈ l, res.price ≤ o.price) ∧
        (∀ o ∈ l.take i, res.price < o.price) := by
  cases l with
  | nil => exact absurd rfl h
  | cons p rest =>
    obtain ⟨i, hget, hmin, hlt⟩ := foldl_selectStep_spec rest p
    refine ⟨List.foldl selectStep p rest, i, ?_, hget, hmin, hlt⟩
    show some (List.foldl selectStep p (p :: rest)) = some (List.foldl selectStep p rest)
    rw [foldl_selectStep_cons_self]

/-- Witness for C1 at a concrete input with a tie for the minimum. -/
theorem getLowestPriceList_first_min_witness :
    ∃ (res : PriceObservation) (i : ℕ),
      getLowestPriceList [⟨"Tesco", 2⟩, ⟨"Asda", 1⟩, ⟨"Lidl", 1⟩] = some res ∧
        [(⟨"Tesco", 2⟩ : PriceObservation), ⟨"Asda", 1⟩, ⟨"Lidl", 1⟩][i]? = some res ∧
        (∀ o ∈ [(⟨"Tesco", 2⟩ : PriceObservation), ⟨"Asda", 1⟩, ⟨"Lidl", 1⟩],
          res.price ≤ o.price) ∧
        (∀ o ∈ ([(⟨"Tesco", 2⟩ : PriceObservation), ⟨"Asda", 1⟩, ⟨"Lidl", 1⟩]).take i,
          res.price < o.price) :=
  getLowestPriceList_first_min [⟨"Tesco", 2⟩, ⟨"Asda", 1⟩, ⟨"Lidl", 1⟩] (by decide)

/-- C2: for every observation sequence, the series `sortedPrices` computed by
`prepareChartData` is sorted non-decreasing by price (`priceLE`) and is a
permutation of the input: no observations are added, dropped, or duplicated. -/
theorem sortedPrices_sorted_and_perm (l : List PriceObservation) :
    List.Sorted priceLE (sortedPrices l) ∧ List.Perm (sortedPrices l) l :=
  ⟨List.sorted_insertionSort priceLE l, List.perm_insertionSort priceLE l⟩

/-- C3: for every observation sequence, the first element of the series built
by `prepareChartData` is exactly the observation `getLowestPriceList` returns,
ties for the minimum included; both are absent exactly on the empty sequence. -/
theorem sortedPrices_head_eq_getLowestPriceList (l : List PriceObservation) :
    (sortedPrices l).head? = getLowestPriceList l := by
  cases l with
  | nil => rfl
  | cons p rest =>
    unfold sortedPrices
    rw [head_insertionSort_cons rest p]
    show some (List.foldl selectStep p rest) = some (List.foldl selectStep p (p :: rest))
    rw [foldl_selectStep_cons_self]

/-- C4 counterexample: with a product whose price entry is an explicit empty
array, `getLowestPrice` yields the absent result but `prepareChartData` does
not — the empty JS array is truthy, so it passes the guard and an
empty/placeholder chart object is produced. -/
theorem prepareChartData_empty_not_absent :
    getLowestPrice ⟨[], [("P1", [])]⟩ "P1" = none ∧
      ¬ prepareChartData ⟨[], [("P1", [])]⟩ "P1" = none := by
  constructor
  · rfl
  · decide

/-- C4 (amended): on an empty observation sequence, `getLowestPrice` yields the
absent result, but `prepareChartData` returns an empty chart object — empty
labels and data — rather than an absent result.  (Both are absent only when
the product id has no price entry at all.) -/
theorem empty_observation_behaviour (results : SearchResults) (productId : String)
    (h : results.prices.lookup productId = some []) :
    getLowestPrice results productId = none ∧
      prepareChartData results productId = some
        { labels := []
          datasets := [
            { label := "Price (£)", data := [], backgroundColor := [],
              borderColor := [], borderWidth := 1 } ] } := by
  constructor
  · unfold getLowestPrice
    rw [h]
    rfl
  · unfold prepareChartData
    rw [h]
    rfl

/-- Witness for the amended C4 at a concrete input. -/
theorem empty_observation_behaviour_witness :
    getLowestPrice ⟨[], [("P2", [])]⟩ "P2" = none ∧
      prepareChartData ⟨[], [("P2", [])]⟩ "P2" = some
        { labels := []
          datasets := [
            { label := "Price (£)", data := [], backgroundColor := [],
              borderColor := [], borderWidth := 1 } ] } :=
  empty_observation_behaviour ⟨[], [("P2", [])]⟩ "P2" (by decide)

/-- C5: the series builder is a stable sort: for every price value, the
observations carrying that price appear in the output exactly in their input
order; on the spec's example `[{A,2.00},{B,2.00},{C,1.50}]` the output is
`[{C,1.50},{A,2.00},{B,2.00}]`, with A before B. -/
theorem sortedPrices_stable (p : ℚ) (l : List PriceObservation) :
    (sortedPrices l).filter (fun o => decide (o.price = p)) =
        l.filter (fun o => decide (o.price = p)) ∧
      sortedPrices [⟨"A", 2⟩, ⟨"B", 2⟩, ⟨"C", mkRat 3 2⟩] =
        [⟨"C", mkRat 3 2⟩, ⟨"A", 2⟩, ⟨"B", 2⟩] :=
  ⟨filter_insertionSort p l, by decide⟩

/-- C6: a product id with no entry in the price mapping gets the absent result
from both `getLowestPrice` and `prepareChartData` (no zero or placeholder
price), and the orchestration renders the products exactly in input order
regardless of price data availability. -/
theorem sparse_data_and_display_order (results : SearchResults) (productId : String)
    (h : results.prices.lookup productId = none) :
    getLowestPrice results productId = none ∧
      prepareChartData results productId = none ∧
      (renderEntries results).map (fun e => e.1) = results.products := by
  refine ⟨?_, ?_, ?_⟩
  · unfold getLowestPrice
    rw [h]
  · unfold prepareChartData
    rw [h]
  · unfold renderEntries
    rw [List.map_map]
    exact List.map_id results.products

/-- Witness for C6: product P2 has no price entry while P1 does. -/
theorem sparse_data_and_display_order_witness :
    getLowestPrice ⟨[⟨"P1", "Milk", "Dairy"⟩, ⟨"P2", "Bread", "Bakery"⟩],
        [("P1", [⟨"Tesco", 2⟩])]⟩ "P2" = none ∧
      prepareChartData ⟨[⟨"P1", "Milk", "Dairy"⟩, ⟨"P2", "Bread", "Bakery"⟩],
        [("P1", [⟨"Tesco", 2⟩])]⟩ "P2" = none ∧
      (renderEntries ⟨[⟨"P1", "Milk", "Dairy"⟩, ⟨"P2", "Bread", "Bakery"⟩],
          [("P1", [⟨"Tesco", 2⟩])]⟩).map (fun e => e.1) =
        SearchResults.products ⟨[⟨"P1", "Milk", "Dairy"⟩, ⟨"P2", "Bread", "Bakery"⟩],
          [("P1", [⟨"Tesco", 2⟩])]⟩ :=
  sparse_data_and_display_order
    ⟨[⟨"P1", "Milk", "Dairy"⟩, ⟨"P2", "Bread", "Bakery"⟩], [("P1", [⟨"Tesco", 2⟩])]⟩
    "P2" (by decide)

/-- C7 counterexample: the code performs no numeric validation; on the input
`[{A, unparseable}, {B, 2}]` the reduce returns the malformed observation `A`
itself — the malformed observation is not excluded from the selection. -/
theorem malformed_price_not_excluded :
    getLowestPriceRawList [⟨"A", none⟩, ⟨"B", some 2⟩] = some ⟨"A", none⟩ ∧
      (⟨"A", none⟩ : RawObservation).price = none := by
  constructor
  · decide
  · rfl

/-- C7 (amended): the code does not validate price values; an observation with
an unparseable price is not excluded — every JS comparison involving its
non-numeric value is false, so whenever the malformed observation is the first
element the reduce returns it unchanged as the "lowest price" (without
raising: the embedded function is total). -/
theorem malformed_first_returned (p : RawObservation) (rest : List RawObservation)
    (h : p.price = none) :
    getLowestPriceRawList (p :: rest) = some p := by
  show some (List.foldl selectStepRaw p (p :: rest)) = some p
  rw [List.foldl_cons]
  have hstep : selectStepRaw p p = p := ite_self p
  rw [hstep]
  exact congrArg some (foldl_selectStepRaw_none rest p h)

/-- Witness for the amended C7 at a concrete input. -/
theorem malformed_first_returned_witness :
    getLowestPriceRawList [⟨"X", none⟩, ⟨"Y", some 1⟩] = some ⟨"X", none⟩ :=
  malformed_first_returned ⟨"X", none⟩ [⟨"Y", some 1⟩] rfl

/-- C8: the selector and the series builder are deterministic pure functions of
their input: two invocations on equal inputs yield equal results, in content
and order. -/
theorem core_functions_deterministic (results₁ results₂ : SearchResults)
    (productId₁ productId₂ : String) (hr : results₁ = results₂)
    (hp : productId₁ = productId₂) :
    getLowestPrice results₁ productId₁ = getLowestPrice results₂ productId₂ ∧
      prepareChartData results₁ productId₁ = prepareChartData results₂ productId₂ := by
  subst hr
  subst hp
  exact ⟨rfl, rfl⟩

/-- Witness for C8 at a concrete input. -/
theorem core_functions_deterministic_witness :
    getLowestPrice ⟨[], [("P1", [⟨"Tesco", 3⟩])]⟩ "P1" =
        getLowestPrice ⟨[], [("P1", [⟨"Tesco", 3⟩])]⟩ "P1" ∧
      prepareChartData ⟨[], [("P1", [⟨"Tesco", 3⟩])]⟩ "P1" =
        prepareChartData ⟨[], [("P1", [⟨"Tesco", 3⟩])]⟩ "P1" :=
  core_functions_deterministic ⟨[], [("P1", [⟨"Tesco", 3⟩])]⟩
    ⟨[], [("P1", [⟨"Tesco", 3⟩])]⟩ "P1" "P1" rfl rfl

/-- C9: the guest-view and authenticated-view copies of `getLowestPrice` and
`prepareChartData` are extensionally equal: for every results object and
product identifier they return the same value. -/
theorem guest_auth_views_agree (results : SearchResults) (productId : String) :
    getLowestPrice results productId = AuthSearch.getLowestPrice results productId ∧
      prepareChartData results productId = AuthSearch.prepareChartData results productId := by
  constructor
  · unfold getLowestPrice AuthSearch.getLowestPrice
    cases results.prices.lookup productId with
    | none => rfl
    | some prices =>
      cases prices with
      | nil => rfl
      | cons p rest => rfl
  · unfold prepareChartData AuthSearch.prepareChartData
    cases results.prices.lookup productId with
    | none => rfl
    | some prices => rfl

/-- C10: `prepareChartData` never mutates its input: the sort runs on a freshly
allocated copy of the observation array, so after the
`[...prices].sort(...)` statement the array the results object references is
unchanged, while the fresh copy holds the sorted series. -/
theorem sortSpreadCopy_preserves_input (h : ArrayHeap) (pricesRef : ℕ)
    (hr : pricesRef < h.cells.length) :
    ((sortSpreadCopy h pricesRef).1).get pricesRef = h.get pricesRef ∧
      ((sortSpreadCopy h pricesRef).1).get (sortSpreadCopy h pricesRef).2 =
        sortedPrices (h.get pricesRef) := by
  have hv : (h.cells ++ [h.cells.getD pricesRef []]).getD h.cells.length [] =
      h.cells.getD pricesRef [] := by
    rw [List.getD_eq_getElem?_getD, List.getElem?_concat_length]
    rfl
  constructor
  · show ((h.cells ++ [h.cells.getD pricesRef []]).set h.cells.length
        (sortedPrices ((h.cells ++ [h.cells.getD pricesRef []]).getD h.cells.length []))).getD
        pricesRef [] = h.cells.getD pricesRef []
    rw [hv, List.getD_eq_getElem?_getD, List.getElem?_set_ne (Nat.ne_of_gt hr),
      List.getElem?_append_left hr, ← List.getD_eq_getElem?_getD]
  · show ((h.cells ++ [h.cells.getD pricesRef []]).set h.cells.length
        (sortedPrices ((h.cells ++ [h.cells.getD pricesRef []]).getD h.cells.length []))).getD
        h.cells.length [] = sortedPrices (h.cells.getD pricesRef [])
    rw [hv, List.getD_eq_getElem?_getD, List.getElem?_set_self (by simp)]
    rfl

/-- Witness for C10 at a concrete heap holding one unsorted array. -/
theorem sortSpreadCopy_preserves_input_witness :
    ((sortSpreadCopy ⟨[[⟨"Tesco", 2⟩, ⟨"Asda", 1⟩]]⟩ 0).1).get 0 =
        ArrayHeap.get ⟨[[⟨"Tesco", 2⟩, ⟨"Asda", 1⟩]]⟩ 0 ∧
      ((sortSpreadCopy ⟨[[⟨"Tesco", 2⟩, ⟨"Asda", 1⟩]]⟩ 0).1).get
          (sortSpreadCopy ⟨[[⟨"Tesco", 2⟩, ⟨"Asda", 1⟩]]⟩ 0).2 =
        sortedPrices (ArrayHeap.get ⟨[[⟨"Tesco", 2⟩, ⟨"Asda", 1⟩]]⟩ 0) :=
  sortSpreadCopy_preserves_input ⟨[[⟨"Tesco", 2⟩, ⟨"Asda", 1⟩]]⟩ 0 (by decide)
